import Mathlib

/-!
# Verification of the company research pipeline

A shallow embedding of `app.py`: a pipeline that resolves a company name to
a description (encyclopedia lookup with a generative fallback), classifies
the industry by keyword matching, parses a model response as JSON, and
builds search URLs for each use case.  External effects (the HTTP lookup,
the generative model, the JSON decoder of the standard library) are modelled
as explicit oracle parameters; everything else is translated directly from
the source.
-/

namespace App

/-! ## String primitives

Python `needle in hay` (substring test), `str.lower` (restricted to ASCII),
and `str.replace(" ", "+")` modelled over character lists. -/

/-- Test whether `pat` is an initial segment of `s`. -/
def headMatch (pat s : List Char) : Bool :=
  match pat, s with
  | [], _ => true
  | p :: ps, c :: cs => if p = c then headMatch ps cs else false
  | _ :: _, [] => false

/-- Test whether `needle` occurs contiguously in `hay`: the semantics of the
Python `in` operator on strings. -/
def hasSub (needle : List Char) : List Char → Bool
  | [] => headMatch needle []
  | b :: bs => headMatch needle (b :: bs) || hasSub needle bs

/-- Python `needle in hay` for strings. -/
def strContains (hay needle : String) : Bool :=
  hasSub needle.data hay.data

/-- Lower-case one ASCII character, the fragment of Python `str.lower`
relevant to the ASCII keyword tables of the classifier. -/
def lowerChar (c : Char) : Char :=
  if 'A' ≤ c ∧ c ≤ 'Z' then Char.ofNat (c.toNat + 32) else c

/-- ASCII model of Python `str.lower`. -/
def pyLower (s : String) : String :=
  String.mk (s.data.map lowerChar)

/-- Python `title.replace(" ", "+")`: every space becomes a plus sign. -/
def plusEncode (s : String) : String :=
  String.mk (s.data.map (fun c => if c = ' ' then '+' else c))

/-! ## Industry classifier

`ResearchAgent._classify_industry` (src/app.py lines 65-80): lower-case the
description, then an if/elif chain of substring tests. -/

/-- Direct translation of `ResearchAgent._classify_industry`. -/
def classifyIndustry (description : String) : String :=
  let d := pyLower description
  if strContains d "automotive" || strContains d "vehicle" then "Automotive"
  else if strContains d "finance" || strContains d "bank" then "Finance"
  else if strContains d "e-commerce" || strContains d "retail" then "E-commerce/Retail"
  else if strContains d "technology" || strContains d "software" then "Technology"
  else if strContains d "entertainment" || strContains d "media" then "Entertainment/Media"
  else if strContains d "healthcare" || strContains d "medical" then "Healthcare"
  else "General Industry"

/-- The keyword table of the classifier in priority order, as data. -/
def keywordTable : List (List String × String) :=
  [ (["automotive", "vehicle"], "Automotive"),
    (["finance", "bank"], "Finance"),
    (["e-commerce", "retail"], "E-commerce/Retail"),
    (["technology", "software"], "Technology"),
    (["entertainment", "media"], "Entertainment/Media"),
    (["healthcare", "medical"], "Healthcare") ]

/-- The twelve keywords of the classifier. -/
def twelveKeywords : List String :=
  (keywordTable.map Prod.fst).flatten

/-- First-match evaluation of an ordered keyword table: the data-driven
restatement of the classifier from the specification. -/
def firstMatch (d : String) : List (List String × String) → String
  | [] => "General Industry"
  | (ks, label) :: rest =>
      if ks.any (fun k => strContains d k) then label else firstMatch d rest

/-- The classifier as the specification words it: first match over the
priority-ordered table, defaulting to "General Industry". -/
def classifySpec (description : String) : String :=
  firstMatch (pyLower description) keywordTable

/-! ## JSON values

The data interchanged with `json.loads` and `json.dumps`.  Objects are kept
as field lists in document order; a Python `dict` corresponds to a field
list without duplicate keys. -/

/-- JSON values. -/
inductive Json where
  | null : Json
  | bool (b : Bool) : Json
  | num (n : Int) : Json
  | str (s : String) : Json
  | arr (xs : List Json) : Json
  | obj (fs : List (String × Json)) : Json

/-! ## JSON serializer

A compact model of `json.dumps`: mandatory escapes only (quote, backslash
and control characters, the latter written `\u00XX`); no inter-token
whitespace. -/

/-- Lower-case hex digit of a value below 16. -/
def hexDigit (n : Nat) : Char :=
  if n < 10 then Char.ofNat (48 + n) else Char.ofNat (87 + n)

/-- Escape one character of a JSON string: quote and backslash get a
backslash, control characters become `\u00XX`, everything else is literal. -/
def escapeChar (c : Char) : List Char :=
  if c = '"' then ['\\', '"']
  else if c = '\\' then ['\\', '\\']
  else if c.toNat < 32 then ['\\', 'u', '0', '0', hexDigit (c.toNat / 16), hexDigit (c.toNat % 16)]
  else [c]

/-- Serialize a string body with its surrounding quotes. -/
def dumpStr (cs : List Char) : List Char :=
  '"' :: cs.flatMap escapeChar ++ ['"']

/-- Decimal digits of a natural number, most significant first, with a fuel
argument dominating the number of digits. -/
def natChars (fuel n : Nat) : List Char :=
  match fuel with
  | 0 => []
  | f + 1 => if n < 10 then [Char.ofNat (48 + n)]
             else natChars f (n / 10) ++ [Char.ofNat (48 + n % 10)]

/-- Serialize an integer. -/
def dumpNum (n : Int) : List Char :=
  (if n < 0 then ['-'] else []) ++ natChars (n.natAbs + 1) n.natAbs

mutual

/-- Serialize a JSON value to characters. -/
def dumpJson : Json → List Char
  | .null => "null".data
  | .bool b => if b then "true".data else "false".data
  | .num n => dumpNum n
  | .str s => dumpStr s.data
  | .arr [] => ['[', ']']
  | .arr (x :: xs) => '[' :: (dumpElems (x :: xs) ++ [']'])
  | .obj [] => ['{', '}']
  | .obj (g :: gs) => '{' :: (dumpFields (g :: gs) ++ ['}'])

/-- Serialize the comma-separated elements of a non-empty array. -/
def dumpElems : List Json → List Char
  | [] => []
  | [x] => dumpJson x
  | x :: y :: ys => dumpJson x ++ ',' :: dumpElems (y :: ys)

/-- Serialize the comma-separated fields of a non-empty object. -/
def dumpFields : List (String × Json) → List Char
  | [] => []
  | [(k, v)] => dumpStr k.data ++ ':' :: dumpJson v
  | (k, v) :: g :: gs => dumpStr k.data ++ ':' :: dumpJson v ++ ',' :: dumpFields (g :: gs)

end

/-! ## JSON decoder

A fueled recursive-descent model of `json.loads` (strict: no inter-token
whitespace, integer numerals only). -/

/-- Value of one hex digit. -/
def parseHex (c : Char) : Option Nat :=
  if '0' ≤ c ∧ c ≤ '9' then some (c.toNat - 48)
  else if 'a' ≤ c ∧ c ≤ 'f' then some (c.toNat - 87)
  else if 'A' ≤ c ∧ c ≤ 'F' then some (c.toNat - 55)
  else none

/-- Decode the escape sequence after a backslash. -/
def parseEsc : List Char → Option (Char × List Char)
  | '"' :: r => some ('"', r)
  | '\\' :: r => some ('\\', r)
  | '/' :: r => some ('/', r)
  | 'n' :: r => some ('\n', r)
  | 't' :: r => some ('\t', r)
  | 'r' :: r => some ('\r', r)
  | 'b' :: r => some (Char.ofNat 8, r)
  | 'f' :: r => some (Char.ofNat 12, r)
  | 'u' :: a :: b :: c :: d :: r =>
      (parseHex a).bind fun ha =>
        (parseHex b).bind fun hb =>
          (parseHex c).bind fun hc =>
            (parseHex d).bind fun hd =>
              some (Char.ofNat (((ha * 16 + hb) * 16 + hc) * 16 + hd), r)
  | _ => none

/-- Decode a string body up to its closing quote. -/
def parseStrBody : Nat → List Char → Option (List Char × List Char)
  | 0, _ => none
  | _ + 1, [] => none
  | f + 1, c :: r =>
    if c = '"' then some ([], r)
    else if c = '\\' then
      (parseEsc r).bind fun p =>
        (parseStrBody f p.2).map fun q => (p.1 :: q.1, q.2)
    else
      (parseStrBody f r).map fun q => (c :: q.1, q.2)

/-- Split leading decimal digits from the rest. -/
def spanDigits (l : List Char) : List Char × List Char :=
  (l.takeWhile Char.isDigit, l.dropWhile Char.isDigit)

/-- Value of a digit list, most significant first. -/
def natOfDigits (ds : List Char) : Nat :=
  ds.foldl (fun a c => a * 10 + (c.toNat - 48)) 0

/-- Decode an integer numeral. -/
def parseNum : List Char → Option (Json × List Char)
  | '-' :: r =>
      let p := spanDigits r
      if p.1 = [] then none else some (.num (-(natOfDigits p.1 : Int)), p.2)
  | l =>
      let p := spanDigits l
      if p.1 = [] then none else some (.num (natOfDigits p.1), p.2)

mutual

/-- Decode one JSON value, returning it with the unconsumed suffix. -/
def parseJ : Nat → List Char → Option (Json × List Char)
  | 0, _ => none
  | _ + 1, [] => none
  | f + 1, c :: r =>
    if c = '"' then
      (parseStrBody f r).map fun p => (.str (String.mk p.1), p.2)
    else if c = '[' then
      match r with
      | ']' :: r' => some (.arr [], r')
      | _ => (parseElems f r).map fun p => (.arr p.1, p.2)
    else if c = '{' then
      match r with
      | '}' :: r' => some (.obj [], r')
      | _ => (parseFields f r).map fun p => (.obj p.1, p.2)
    else if c = 'n' then
      match r with
      | 'u' :: 'l' :: 'l' :: r' => some (.null, r')
      | _ => none
    else if c = 't' then
      match r with
      | 'r' :: 'u' :: 'e' :: r' => some (.bool true, r')
      | _ => none
    else if c = 'f' then
      match r with
      | 'a' :: 'l' :: 's' :: 'e' :: r' => some (.bool false, r')
      | _ => none
    else if c = '-' ∨ c.isDigit then parseNum (c :: r)
    else none

/-- Decode the elements of a non-empty array body up to the closing bracket. -/
def parseElems : Nat → List Char → Option (List Json × List Char)
  | 0, _ => none
  | f + 1, l =>
    (parseJ f l).bind fun p =>
      match p.2 with
      | ',' :: r' => (parseElems f r').map fun q => (p.1 :: q.1, q.2)
      | ']' :: r' => some ([p.1], r')
      | _ => none

/-- Decode the fields of a non-empty object body up to the closing brace. -/
def parseFields : Nat → List Char → Option (List (String × Json) × List Char)
  | 0, _ => none
  | f + 1, l =>
    match l with
    | '"' :: r =>
      (parseStrBody f r).bind fun p =>
        match p.2 with
        | ':' :: r₂ =>
          (parseJ f r₂).bind fun q =>
            match q.2 with
            | ',' :: r₄ =>
              (parseFields f r₄).map fun w => ((String.mk p.1, q.1) :: w.1, w.2)
            | '}' :: r₄ => some ([(String.mk p.1, q.1)], r₄)
            | _ => none
        | _ => none
    | _ => none

end

/-- Model of `json.dumps`. -/
def dumps (j : Json) : String := String.mk (dumpJson j)

/-- Model of `json.loads`: decode an entire document, with fuel dominated by
twice the input length. -/
def parseJson (s : String) : Option Json :=
  match parseJ (2 * s.data.length + 1) s.data with
  | some (j, []) => some j
  | _ => none

/-! ## Fuel accounting and the output schema -/

mutual

/-- Fuel sufficient for `parseJ` to re-read a serialized value. -/
def needJ : Json → Nat
  | .null => 1
  | .bool _ => 1
  | .num _ => 1
  | .str s => s.data.length + 2
  | .arr xs => 1 + needE xs
  | .obj fs => 1 + needF fs

/-- Fuel sufficient for `parseElems` on serialized elements. -/
def needE : List Json → Nat
  | [] => 1
  | x :: xs => 1 + needJ x + needE xs

/-- Fuel sufficient for `parseFields` on serialized fields. -/
def needF : List (String × Json) → Nat
  | [] => 1
  | (k, v) :: fs => 2 + k.data.length + needJ v + needF fs

end

mutual

/-- The schema of §3 of the specification: every leaf is a string, and
objects have the distinct keys of a Python `dict`. -/
def schemaOKb : Json → Bool
  | .null => false
  | .bool _ => false
  | .num _ => false
  | .str _ => true
  | .arr xs => schemaOKbE xs
  | .obj fs => decide ((fs.map Prod.fst).Nodup) && schemaOKbF fs

/-- Schema check for array elements. -/
def schemaOKbE : List Json → Bool
  | [] => true
  | x :: xs => schemaOKb x && schemaOKbE xs

/-- Schema check for object field values. -/
def schemaOKbF : List (String × Json) → Bool
  | [] => true
  | (_, v) :: fs => schemaOKb v && schemaOKbF fs

end

/-! ## Company lookup

`WebBrowserTools.scrape_company_info` (src/app.py lines 21-41).  The
reference-API call and the gemini calls are oracles.  The gemini oracle is
indexed by invocation count, because the source can call it twice: the
fallback calls at lines 31 and 33 sit inside the `try` block, so an
exception they raise is caught by the blanket `except` handler at line 34,
which calls gemini once more at line 35. -/

/-- Outcome of `requests.get` on the summary endpoint followed by
`response.json()`: an exception (transport failure or malformed body), or a
response carrying its status code and optional string `extract` field. -/
inductive WikiResult where
  | netErr : WikiResult
  | resp (status : Nat) (extract : Option String) : WikiResult

/-- The except-handler gemini call alone, taken on the transport-failure
path: its error propagates. -/
def gemOnce (gem : Nat → Except Unit String) : Except Unit (String × Nat) :=
  match gem 0 with
  | .ok s => .ok (s, 1)
  | .error e => .error e

/-- The fallback gemini call inside the `try` block (empty or ambiguous
extract, or non-200 status): if it raises, the blanket `except` handler
calls gemini once more, and only the second failure propagates. -/
def gemTwice (gem : Nat → Except Unit String) : Except Unit (String × Nat) :=
  match gem 0 with
  | .ok s => .ok (s, 1)
  | .error _ =>
    match gem 1 with
    | .ok s => .ok (s, 2)
    | .error e => .error e

/-- The description computed by `scrape_company_info`, paired with the
number of gemini invocations performed; `error` is an uncaught exception.
`gem n` is the outcome of the gemini call number `n`. -/
def scrapeDescription (wiki : WikiResult) (gem : Nat → Except Unit String) :
    Except Unit (String × Nat) :=
  match wiki with
  | .netErr => gemOnce gem
  | .resp status extract =>
    if status = 200 then
      let description := extract.getD ""
      if description = "" ∨ strContains description "may refer to:" = true then gemTwice gem
      else .ok (description, 0)
    else gemTwice gem

/-- The dictionary returned by `scrape_company_info`. -/
structure CompanyData where
  description : String
  products : List String
  focus_areas : List String

/-- `scrape_company_info`: the description plus the fixed placeholder
lists, with the gemini invocation count carried along. -/
def scrape_company_info (wiki : WikiResult) (gem : Nat → Except Unit String) :
    Except Unit (CompanyData × Nat) :=
  (scrapeDescription wiki gem).map fun p =>
    (⟨p.1, ["Product A", "Product B"], ["Focus Area 1", "Focus Area 2"]⟩, p.2)

/-- The record built by `ResearchAgent.research_company`. -/
structure CompanyInfo where
  company : String
  industry : String
  offerings : List String
  strategic_focus : List String
  description : String

/-- `ResearchAgent.research_company`: scrape, then stamp the classifier
result and the original company name. -/
def research_company (company_name : String) (wiki : WikiResult)
    (gem : Nat → Except Unit String) : Except Unit (CompanyInfo × Nat) :=
  (scrape_company_info wiki gem).map fun p =>
    (⟨company_name, classifyIndustry p.1.description, p.1.products,
      p.1.focus_areas, p.1.description⟩, p.2)

/-- The success condition under which the extract is used verbatim: status
200, non-empty extract, no disambiguation marker. -/
def wikiGood : WikiResult → Option String
  | .netErr => none
  | .resp status extract =>
    let d := extract.getD ""
    if status = 200 ∧ d ≠ "" ∧ strContains d "may refer to:" = false then some d else none

/-- A gemini oracle whose first call raises and whose second call returns
text, exercising the double-invocation path of `scrape_company_info`. -/
def gemFailThenOk : Nat → Except Unit String :=
  fun n => if n = 0 then .error () else .ok "recovered"

/-! ## Use-case generation

`MarketAnalysisAgent._parse_response` (src/app.py lines 107-111) and
`generate_use_cases` (lines 87-105).  `loads` is the `json.loads` oracle;
the model response text is a parameter. -/

/-- `MarketAnalysisAgent._parse_response`: decode the whole response text as
JSON; on success return the decoded value as-is, on failure return the
degraded one-element summary list. -/
def parse_response (loads : String → Option Json) (response_content : String) : Json :=
  match loads response_content with
  | some j => j
  | none => .arr [.obj [("use_case_summary", .str response_content)]]

/-- `MarketAnalysisAgent.generate_use_cases`, given the text the model
returned for the prompt. -/
def generate_use_cases (loads : String → Option Json) (responseText : String) : Json :=
  parse_response loads responseText

/-! ## Resource collection

`ResourceCollectorAgent.find_resources` (src/app.py lines 117-127).
Python `dict` lookup, insertion-with-overwrite, and iteration are modelled
on field lists with distinct keys; an `error` result is a raised
`AttributeError` or `TypeError`. -/

/-- Python `dict.get`-style field lookup. -/
def getField : List (String × Json) → String → Option Json
  | [], _ => none
  | (k₀, v) :: t, k => if k₀ = k then some v else getField t k

/-- `case.get("use_case", case.get("use_case_summary", "general"))`. -/
def titleOf (fs : List (String × Json)) : Json :=
  (getField fs "use_case").getD ((getField fs "use_case_summary").getD (.str "general"))

/-- The three search links built for one title. -/
def resourceEntry (title : String) : Json :=
  .obj [
    ("datasets", .arr [.str ("https://kaggle.com/search?q=" ++ plusEncode title)]),
    ("models", .arr [.str ("https://huggingface.co/models?search=" ++ plusEncode title)]),
    ("github_projects", .arr [.str ("https://github.com/search?q=" ++ plusEncode title)])]

/-- Python `resources[title] = value`: overwrite in place, or append. -/
def insertOverwrite : List (String × Json) → String → Json → List (String × Json)
  | [], k, v => [(k, v)]
  | (k₀, v₀) :: t, k, v =>
      if k₀ = k then (k, v) :: t else (k₀, v₀) :: insertOverwrite t k v

/-- Python `for case in use_cases`: lists iterate their elements, strings
their characters, dicts their keys; other values raise `TypeError`. -/
def pyElems : Json → Except Unit (List Json)
  | .arr xs => .ok xs
  | .str s => .ok (s.data.map fun c => .str (String.mk [c]))
  | .obj fs => .ok (fs.map fun p => .str p.1)
  | _ => .error ()

/-- The loop body of `find_resources`: extract a title (an `AttributeError`
for a non-mapping element or a non-string title) and insert its entry. -/
def findResGo (acc : List (String × Json)) : List Json → Except Unit (List (String × Json))
  | [] => .ok acc
  | c :: rest =>
    match c with
    | .obj fs =>
      match titleOf fs with
      | .str title => findResGo (insertOverwrite acc title (resourceEntry title)) rest
      | _ => .error ()
    | _ => .error ()

/-- `ResourceCollectorAgent.find_resources`. -/
def find_resources (use_cases : Json) : Except Unit Json :=
  match pyElems use_cases with
  | .error e => .error e
  | .ok cases =>
    match findResGo [] cases with
    | .error e => .error e
    | .ok m => .ok (.obj m)

/-- Whether one element of the use-case list passes the loop body without
raising: a mapping whose extracted title is a string. -/
def goodCaseB : Json → Bool
  | .obj fs =>
    match titleOf fs with
    | .str _ => true
    | _ => false
  | _ => false

/-! ## Orchestrator and trigger block -/

/-- The `company_info` record as the JSON value it serializes to. -/
def companyInfoJson (ci : CompanyInfo) : Json :=
  .obj [
    ("company", .str ci.company),
    ("industry", .str ci.industry),
    ("offerings", .arr (ci.offerings.map Json.str)),
    ("strategic_focus", .arr (ci.strategic_focus.map Json.str)),
    ("description", .str ci.description)]

/-- `MultiAgentSystem.run` (src/app.py lines 135-143): research, use-case
generation, resource collection, strictly in sequence; `marketText` is
the outcome of the use-case model call. -/
def runSystem (company_name : String) (wiki : WikiResult) (gem : Nat → Except Unit String)
    (loads : String → Option Json) (marketText : Except Unit String) : Except Unit Json :=
  match research_company company_name wiki gem with
  | .error e => .error e
  | .ok (ci, _) =>
    match marketText with
    | .error e => .error e
    | .ok t =>
      let use_cases := parse_response loads t
      match find_resources use_cases with
      | .error e => .error e
      | .ok res =>
        .ok (.obj [("company_info", companyInfoJson ci), ("ai_use_cases", use_cases),
          ("resource_assets", res)])

/-- Observable outcome of the button handler (src/app.py lines 151-202). -/
inductive UIOutcome where
  | ran (result : Except Unit Json) : UIOutcome
  | warned : UIOutcome

/-- The `st.button` handler: `if company_name:` runs the pipeline, the
`else` branch only warns. -/
def triggerBlock (company_name : String) (runner : String → Except Unit Json) : UIOutcome :=
  if company_name.isEmpty then .warned else .ran (runner company_name)

/-- A concrete analysis result of the defined schema, used to exercise the
serialization round trip. -/
def sampleResult : Json :=
  .obj [
    ("company_info", companyInfoJson
      ⟨"Acme", "Technology", ["Product A", "Product B"],
        ["Focus Area 1", "Focus Area 2"], "Acme makes software."⟩),
    ("ai_use_cases", .arr [.obj [("use_case", .str "Demand Forecasting"),
      ("description", .str "x"), ("feasibility", .str "High")]]),
    ("resource_assets", .obj [("Demand Forecasting", resourceEntry "Demand Forecasting")])]

/-! ## Theorems: serializer and decoder -/

theorem parseHex_hexDigit (n : Nat) (h : n < 16) : parseHex (hexDigit n) = some n := by
  interval_cases n <;> rfl

theorem escapeChar_other (c : Char) (h1 : c ≠ '"') (h2 : c ≠ '\\') (h3 : ¬c.toNat < 32) :
    escapeChar c = [c] := by
  unfold escapeChar
  rw [if_neg h1, if_neg h2, if_neg h3]

theorem escapeChar_ctrl (c : Char) (h1 : c ≠ '"') (h2 : c ≠ '\\') (h3 : c.toNat < 32) :
    escapeChar c = ['\\', 'u', '0', '0', hexDigit (c.toNat / 16), hexDigit (c.toNat % 16)] := by
  unfold escapeChar
  rw [if_neg h1, if_neg h2, if_pos h3]

theorem parseStrBody_cons (f : Nat) (c : Char) (r : List Char) :
    parseStrBody (f + 1) (c :: r) =
      if c = '"' then some ([], r)
      else if c = '\\' then
        (parseEsc r).bind fun p =>
          (parseStrBody f p.2).map fun q => (p.1 :: q.1, q.2)
      else (parseStrBody f r).map fun q => (c :: q.1, q.2) := rfl

theorem parseStrBody_round (cs : List Char) : ∀ (f : Nat) (r : List Char), cs.length < f →
    parseStrBody f (cs.flatMap escapeChar ++ '"' :: r) = some (cs, r) := by
  induction cs with
  | nil =>
    intro f r hf
    obtain ⟨f, rfl⟩ : ∃ g, f = g + 1 := ⟨f - 1, by omega⟩
    simp [parseStrBody_cons]
  | cons c cs ih =>
    intro f r hf
    simp only [List.length_cons] at hf
    obtain ⟨f, rfl⟩ : ∃ g, f = g + 1 := ⟨f - 1, by omega⟩
    have hcs : cs.length < f := by omega
    by_cases h1 : c = '"'
    · subst h1
      have e : escapeChar '"' = ['\\', '"'] := rfl
      simp only [List.flatMap_cons, e, List.append_assoc, List.cons_append, List.nil_append]
      rw [parseStrBody_cons, if_neg (by decide), if_pos rfl]
      have e2 : parseEsc ('"' :: (cs.flatMap escapeChar ++ '"' :: r)) =
          some ('"', cs.flatMap escapeChar ++ '"' :: r) := rfl
      rw [e2, Option.some_bind, ih f r hcs]
      rfl
    · by_cases h2 : c = '\\'
      · subst h2
        have e : escapeChar '\\' = ['\\', '\\'] := rfl
        simp only [List.flatMap_cons, e, List.append_assoc, List.cons_append, List.nil_append]
        rw [parseStrBody_cons, if_neg (by decide), if_pos rfl]
        have e2 : parseEsc ('\\' :: (cs.flatMap escapeChar ++ '"' :: r)) =
            some ('\\', cs.flatMap escapeChar ++ '"' :: r) := rfl
        rw [e2, Option.some_bind, ih f r hcs]
        rfl
      · by_cases h3 : c.toNat < 32
        · simp only [List.flatMap_cons, escapeChar_ctrl c h1 h2 h3, List.append_assoc,
            List.cons_append, List.nil_append]
          rw [parseStrBody_cons, if_neg (by decide), if_pos rfl]
          have d1 : c.toNat / 16 < 16 := by omega
          have d2 : c.toNat % 16 < 16 := by omega
          have e2 : ∀ tail : List Char,
              parseEsc ('u' :: '0' :: '0' :: hexDigit (c.toNat / 16) ::
                  hexDigit (c.toNat % 16) :: tail) =
                (parseHex '0').bind fun ha =>
                  (parseHex '0').bind fun hb =>
                    (parseHex (hexDigit (c.toNat / 16))).bind fun hc =>
                      (parseHex (hexDigit (c.toNat % 16))).bind fun hd =>
                        some (Char.ofNat (((ha * 16 + hb) * 16 + hc) * 16 + hd), tail) :=
            fun tail => rfl
          rw [e2]
          have hx : parseHex '0' = some 0 := rfl
          rw [hx, parseHex_hexDigit _ d1, parseHex_hexDigit _ d2]
          simp only [Option.some_bind]
          have hv : ((0 * 16 + 0) * 16 + c.toNat / 16) * 16 + c.toNat % 16 = c.toNat := by
            omega
          rw [hv, Char.ofNat_toNat, ih f r hcs]
          rfl
        · simp only [List.flatMap_cons, escapeChar_other c h1 h2 h3, List.append_assoc,
            List.cons_append, List.nil_append]
          rw [parseStrBody_cons, if_neg h1, if_neg h2, ih f r hcs]
          rfl



theorem dumpElems_cons (x : Json) (xs : List Json) :
    ∃ u, dumpElems (x :: xs) = dumpJson x ++ u := by
  cases xs with
  | nil => exact ⟨[], (List.append_nil _).symm⟩
  | cons y ys => exact ⟨',' :: dumpElems (y :: ys), rfl⟩

theorem dumpJson_head (j : Json) (h : schemaOKb j = true) :
    ∃ t, dumpJson j = '"' :: t ∨ dumpJson j = '[' :: t ∨ dumpJson j = '{' :: t := by
  cases j with
  | str s => exact ⟨s.data.flatMap escapeChar ++ ['"'], Or.inl rfl⟩
  | arr xs =>
    cases xs with
    | nil => exact ⟨[']'], Or.inr (Or.inl rfl)⟩
    | cons y ys => exact ⟨dumpElems (y :: ys) ++ [']'], Or.inr (Or.inl rfl)⟩
  | obj fs =>
    cases fs with
    | nil => exact ⟨['}'], Or.inr (Or.inr rfl)⟩
    | cons g gs => exact ⟨dumpFields (g :: gs) ++ ['}'], Or.inr (Or.inr rfl)⟩
  | null => simp [schemaOKb] at h
  | bool b => simp [schemaOKb] at h
  | num n => simp [schemaOKb] at h

theorem parseElems_succ (f : Nat) (l : List Char) :
    parseElems (f + 1) l =
      (parseJ f l).bind fun p =>
        match p.2 with
        | ',' :: r' => (parseElems f r').map fun q => (p.1 :: q.1, q.2)
        | ']' :: r' => some ([p.1], r')
        | _ => none := rfl

theorem parseFields_quote (f : Nat) (r : List Char) :
    parseFields (f + 1) ('"' :: r) =
      (parseStrBody f r).bind fun p =>
        match p.2 with
        | ':' :: r₂ =>
          (parseJ f r₂).bind fun q =>
            match q.2 with
            | ',' :: r₄ => (parseFields f r₄).map fun w => ((String.mk p.1, q.1) :: w.1, w.2)
            | '}' :: r₄ => some ([(String.mk p.1, q.1)], r₄)
            | _ => none
        | _ => none := rfl

mutual

theorem roundJ : ∀ (j : Json), schemaOKb j = true → ∀ (f : Nat) (r : List Char),
    needJ j ≤ f → parseJ f (dumpJson j ++ r) = some (j, r)
  | .null, hok, _, _, _ => by simp [schemaOKb] at hok
  | .bool b, hok, _, _, _ => by simp [schemaOKb] at hok
  | .num n, hok, _, _, _ => by simp [schemaOKb] at hok
  | .str s, _, f, r, hf => by
    simp only [needJ] at hf
    obtain ⟨f, rfl⟩ : ∃ g, f = g + 1 := ⟨f - 1, by omega⟩
    show parseJ (f + 1) (('"' :: (s.data.flatMap escapeChar ++ ['"'])) ++ r) = _
    simp only [List.cons_append, List.append_assoc, List.singleton_append, List.nil_append]
    unfold parseJ
    rw [if_pos rfl, parseStrBody_round s.data f r (by omega)]
    rfl
  | .arr [], _, f, r, hf => by
    simp only [needJ, needE] at hf
    obtain ⟨f, rfl⟩ : ∃ g, f = g + 1 := ⟨f - 1, by omega⟩
    show parseJ (f + 1) (('[' :: [']']) ++ r) = _
    simp only [List.cons_append, List.nil_append]
    unfold parseJ
    rw [if_neg (by decide), if_pos rfl]
    rfl
  | .arr (x :: xs), hok, f, r, hf => by
    simp only [schemaOKb, schemaOKbE, Bool.and_eq_true] at hok
    simp only [needJ] at hf
    obtain ⟨f, rfl⟩ : ∃ g, f = g + 1 := ⟨f - 1, by omega⟩
    show parseJ (f + 1) (('[' :: (dumpElems (x :: xs) ++ [']'])) ++ r) = _
    simp only [List.cons_append, List.append_assoc, List.singleton_append, List.nil_append]
    unfold parseJ
    rw [if_neg (by decide), if_pos rfl]
    obtain ⟨u, hu⟩ := dumpElems_cons x xs
    obtain ⟨t, ht⟩ := dumpJson_head x hok.1
    have hre : parseElems f (dumpElems (x :: xs) ++ ']' :: r) = some (x :: xs, r) :=
      roundE x xs hok.1 hok.2 f r (by omega)
    rcases ht with ht | ht | ht <;>
      · rw [hu, ht] at hre ⊢
        simp only [List.cons_append, List.append_assoc, List.nil_append] at hre ⊢
        rw [hre]
        rfl
  | .obj [], _, f, r, hf => by
    simp only [needJ, needF] at hf
    obtain ⟨f, rfl⟩ : ∃ g, f = g + 1 := ⟨f - 1, by omega⟩
    show parseJ (f + 1) (('{' :: ['}']) ++ r) = _
    simp only [List.cons_append, List.nil_append]
    unfold parseJ
    rw [if_neg (by decide), if_neg (by decide), if_pos rfl]
    rfl
  | .obj ((k, v) :: fs), hok, f, r, hf => by
    simp only [schemaOKb, schemaOKbF, Bool.and_eq_true] at hok
    simp only [needJ] at hf
    obtain ⟨f, rfl⟩ : ∃ g, f = g + 1 := ⟨f - 1, by omega⟩
    show parseJ (f + 1) (('{' :: (dumpFields ((k, v) :: fs) ++ ['}'])) ++ r) = _
    simp only [List.cons_append, List.append_assoc, List.singleton_append, List.nil_append]
    unfold parseJ
    rw [if_neg (by decide), if_neg (by decide), if_pos rfl]
    have hrf : parseFields f (dumpFields ((k, v) :: fs) ++ '}' :: r) = some ((k, v) :: fs, r) :=
      roundF k v fs hok.2.1 hok.2.2 f r (by omega)
    have hhd : ∃ u, dumpFields ((k, v) :: fs) = '"' :: u := by
      cases fs with
      | nil => exact ⟨k.data.flatMap escapeChar ++ ['"'] ++ ':' :: dumpJson v, by
          show dumpStr k.data ++ ':' :: dumpJson v = _
          simp [dumpStr, List.append_assoc]⟩
      | cons g gs => exact ⟨k.data.flatMap escapeChar ++ ['"'] ++ ':' :: dumpJson v ++
          ',' :: dumpFields (g :: gs), by
          show dumpStr k.data ++ ':' :: dumpJson v ++ ',' :: dumpFields (g :: gs) = _
          simp [dumpStr, List.append_assoc]⟩
    obtain ⟨u, hu⟩ := hhd
    rw [hu] at hrf ⊢
    simp only [List.cons_append, List.append_assoc, List.nil_append] at hrf ⊢
    rw [hrf]
    rfl
termination_by j _ _ _ _ => sizeOf j

theorem roundE : ∀ (x : Json) (xs : List Json), schemaOKb x = true → schemaOKbE xs = true →
    ∀ (f : Nat) (r : List Char), needE (x :: xs) ≤ f →
    parseElems f (dumpElems (x :: xs) ++ ']' :: r) = some (x :: xs, r)
  | x, [], hx, _, f, r, hf => by
    simp only [needE] at hf
    obtain ⟨f, rfl⟩ : ∃ g, f = g + 1 := ⟨f - 1, by omega⟩
    rw [parseElems_succ]
    show ((parseJ f (dumpJson x ++ ']' :: r)).bind _) = _
    rw [roundJ x hx f (']' :: r) (by omega)]
    rfl
  | x, y :: ys, hx, hys, f, r, hf => by
    simp only [schemaOKbE, Bool.and_eq_true] at hys
    simp only [needE] at hf
    obtain ⟨f, rfl⟩ : ∃ g, f = g + 1 := ⟨f - 1, by omega⟩
    rw [parseElems_succ]
    show ((parseJ f ((dumpJson x ++ ',' :: dumpElems (y :: ys)) ++ ']' :: r)).bind _) = _
    simp only [List.append_assoc, List.cons_append]
    rw [roundJ x hx f (',' :: (dumpElems (y :: ys) ++ ']' :: r)) (by omega)]
    show (parseElems f (dumpElems (y :: ys) ++ ']' :: r)).map _ = _
    rw [roundE y ys hys.1 hys.2 f r (by simp only [needE]; omega)]
    rfl
termination_by x xs _ _ _ _ _ => 1 + sizeOf x + sizeOf xs

theorem roundF : ∀ (k : String) (v : Json) (fs : List (String × Json)),
    schemaOKb v = true → schemaOKbF fs = true →
    ∀ (f : Nat) (r : List Char), needF ((k, v) :: fs) ≤ f →
    parseFields f (dumpFields ((k, v) :: fs) ++ '}' :: r) = some ((k, v) :: fs, r)
  | k, v, [], hv, _, f, r, hf => by
    simp only [needF] at hf
    obtain ⟨f, rfl⟩ : ∃ g, f = g + 1 := ⟨f - 1, by omega⟩
    show parseFields (f + 1)
        ((dumpStr k.data ++ ':' :: dumpJson v) ++ '}' :: r) = _
    simp only [dumpStr, List.cons_append, List.append_assoc, List.singleton_append, List.nil_append]
    rw [parseFields_quote, parseStrBody_round k.data f (':' :: (dumpJson v ++ '}' :: r)) (by omega)]
    rw [Option.some_bind]
    show ((parseJ f (dumpJson v ++ '}' :: r)).bind _) = _
    rw [roundJ v hv f ('}' :: r) (by omega)]
    rfl
  | k, v, (k2, v2) :: gs, hv, hgs, f, r, hf => by
    simp only [needF] at hf
    obtain ⟨f, rfl⟩ : ∃ g, f = g + 1 := ⟨f - 1, by omega⟩
    show parseFields (f + 1)
        ((dumpStr k.data ++ ':' :: dumpJson v ++ ',' :: dumpFields ((k2, v2) :: gs)) ++
          '}' :: r) = _
    simp only [dumpStr, List.cons_append, List.append_assoc, List.singleton_append, List.nil_append]
    rw [parseFields_quote, parseStrBody_round k.data f
      (':' :: (dumpJson v ++ ',' :: (dumpFields ((k2, v2) :: gs) ++ '}' :: r))) (by omega)]
    rw [Option.some_bind]
    show ((parseJ f (dumpJson v ++ ',' :: (dumpFields ((k2, v2) :: gs) ++ '}' :: r))).bind _) = _
    rw [roundJ v hv f (',' :: (dumpFields ((k2, v2) :: gs) ++ '}' :: r)) (by omega)]
    show (parseFields f (dumpFields ((k2, v2) :: gs) ++ '}' :: r)).map _ = _
    simp only [schemaOKbF, Bool.and_eq_true] at hgs
    have hrec := roundF k2 v2 gs hgs.1 hgs.2 f r (by simp only [needF] at hf ⊢; omega)
    rw [hrec]
    rfl
termination_by k v fs _ _ _ _ _ => 1 + sizeOf v + sizeOf fs

end

theorem escapeChar_length (c : Char) : 1 ≤ (escapeChar c).length := by
  unfold escapeChar
  split
  · simp
  · split
    · simp
    · split <;> simp

theorem flatMap_escape_length (cs : List Char) :
    cs.length ≤ (cs.flatMap escapeChar).length := by
  induction cs with
  | nil => simp
  | cons c cs ih =>
    have := escapeChar_length c
    simp only [List.flatMap_cons, List.length_append, List.length_cons]
    omega

theorem dumpNum_length (n : Int) : 1 ≤ (dumpNum n).length := by
  unfold dumpNum
  have h : 1 ≤ (natChars (n.natAbs + 1) n.natAbs).length := by
    rw [natChars]
    split <;> simp
  simp only [List.length_append]
  omega

mutual

theorem needJ_lt : ∀ j : Json, needJ j < 2 * (dumpJson j).length
  | .null => by simp [needJ, dumpJson]
  | .bool b => by cases b <;> simp [needJ, dumpJson]
  | .num n => by
    have := dumpNum_length n
    simp only [needJ, dumpJson]
    omega
  | .str s => by
    have := flatMap_escape_length s.data
    simp only [needJ, dumpJson, dumpStr, List.length_cons, List.length_append,
      List.length_singleton]
    omega
  | .arr [] => by simp [needJ, needE, dumpJson]
  | .arr (x :: xs) => by
    have := needE_le x xs
    simp only [needJ, dumpJson, List.length_cons, List.length_append, List.length_singleton]
    omega
  | .obj [] => by simp [needJ, needF, dumpJson]
  | .obj ((k, v) :: fs) => by
    have := needF_le k v fs
    simp only [needJ, dumpJson, List.length_cons, List.length_append, List.length_singleton]
    omega
termination_by j => sizeOf j

theorem needE_le : ∀ (x : Json) (xs : List Json),
    needE (x :: xs) ≤ 2 * (dumpElems (x :: xs)).length + 1
  | x, [] => by
    have := needJ_lt x
    simp only [needE, dumpElems]
    omega
  | x, y :: ys => by
    have h1 := needJ_lt x
    have h2 := needE_le y ys
    simp only [needE] at h2
    simp only [needE, dumpElems, List.length_append, List.length_cons]
    omega
termination_by x xs => 1 + sizeOf x + sizeOf xs

theorem needF_le : ∀ (k : String) (v : Json) (fs : List (String × Json)),
    needF ((k, v) :: fs) ≤ 2 * (dumpFields ((k, v) :: fs)).length + 1
  | k, v, [] => by
    have h1 := needJ_lt v
    have h2 := flatMap_escape_length k.data
    simp only [needF, dumpFields, dumpStr, List.length_append, List.length_cons,
      List.length_singleton]
    omega
  | k, v, (k2, v2) :: gs => by
    have h1 := needJ_lt v
    have h2 := flatMap_escape_length k.data
    have h3 := needF_le k2 v2 gs
    simp only [needF] at h3
    simp only [needF, dumpFields, dumpStr, List.length_append, List.length_cons,
      List.length_singleton]
    omega
termination_by k v fs => 1 + sizeOf v + sizeOf fs

end

/-- C9: serializing a schema-conformant analysis result to JSON text and
decoding the text reproduces the same structure, with identical string
values: the round trip is lossless for the defined schema. -/
theorem analysis_result_roundtrip (j : Json) (h : schemaOKb j = true) :
    parseJson (dumps j) = some j := by
  unfold parseJson dumps
  show (match parseJ (2 * (dumpJson j).length + 1) (dumpJson j) with
    | some (j, []) => some j
    | _ => none) = some j
  have hr := roundJ j h (2 * (dumpJson j).length + 1) [] (by have := needJ_lt j; omega)
  rw [List.append_nil] at hr
  rw [hr]

/-- Witness for C9 at a concrete analysis result. -/
theorem analysis_result_roundtrip_witness :
    schemaOKb sampleResult = true ∧ parseJson (dumps sampleResult) = some sampleResult :=
  ⟨rfl, analysis_result_roundtrip sampleResult rfl⟩

/-! ## Theorems: industry classifier -/

theorem classify_eq_firstMatch (s : String) : classifyIndustry s = classifySpec s := by
  simp [classifyIndustry, classifySpec, keywordTable, firstMatch, List.any]

theorem classify_no_keyword (s : String)
    (h : ∀ k ∈ twelveKeywords, strContains (pyLower s) k = false) :
    classifyIndustry s = "General Industry" := by
  simp only [twelveKeywords, keywordTable, List.map_cons, List.map_nil, List.flatten] at h
  simp only [List.mem_append, List.mem_cons, List.not_mem_nil] at h
  have h1 := h "automotive" (by tauto)
  have h2 := h "vehicle" (by tauto)
  have h3 := h "finance" (by tauto)
  have h4 := h "bank" (by tauto)
  have h5 := h "e-commerce" (by tauto)
  have h6 := h "retail" (by tauto)
  have h7 := h "technology" (by tauto)
  have h8 := h "software" (by tauto)
  have h9 := h "entertainment" (by tauto)
  have h10 := h "media" (by tauto)
  have h11 := h "healthcare" (by tauto)
  have h12 := h "medical" (by tauto)
  simp [classifyIndustry, h1, h2, h3, h4, h5, h6, h7, h8, h9, h10, h11, h12]

/-- C1: the classifier is the pure total function that lower-cases the
description and takes the first match of the priority-ordered keyword
table, returns "General Industry" when none of the twelve keywords occurs,
and classifies a description containing both "bank" and "software" as
Finance. -/
theorem classifier_first_match (s : String) :
    classifyIndustry s = classifySpec s ∧
    ((∀ k ∈ twelveKeywords, strContains (pyLower s) k = false) →
      classifyIndustry s = "General Industry") ∧
    classifyIndustry "Internet bank software" = "Finance" :=
  ⟨classify_eq_firstMatch s, classify_no_keyword s, by decide⟩

/-- Witness for C1 at a keyword-free description. -/
theorem classifier_first_match_witness :
    (∀ k ∈ twelveKeywords, strContains (pyLower "We sell fresh fruit") k = false) ∧
    classifyIndustry "We sell fresh fruit" = "General Industry" :=
  ⟨by decide, (classifier_first_match "We sell fresh fruit").2.1 (by decide)⟩

/-! ## Theorems: company lookup -/

theorem gemOnce_ok (gem : Nat → Except Unit String) (s : String) (n : Nat)
    (h : gemOnce gem = .ok (s, n)) : n = 1 ∧ gem 0 = .ok s := by
  unfold gemOnce at h
  cases hg : gem 0 with
  | ok t => rw [hg] at h; injection h with h; injection h with h1 h2; subst h1; subst h2; exact ⟨rfl, rfl⟩
  | error e => rw [hg] at h; cases h

theorem gemTwice_ok (gem : Nat → Except Unit String) (s : String) (n : Nat)
    (h : gemTwice gem = .ok (s, n)) :
    (1 ≤ n ∧ n ≤ 2) ∧ (gem 0 = .ok s ∨ gem 1 = .ok s) := by
  unfold gemTwice at h
  cases hg : gem 0 with
  | ok t =>
    rw [hg] at h; injection h with h; injection h with h1 h2; subst h1; subst h2
    exact ⟨by omega, Or.inl rfl⟩
  | error e =>
    rw [hg] at h
    cases hg2 : gem 1 with
    | ok t =>
      rw [hg2] at h; injection h with h; injection h with h1 h2; subst h1; subst h2
      exact ⟨by omega, Or.inr rfl⟩
    | error e2 => rw [hg2] at h; cases h

theorem gemTwice_err (gem : Nat → Except Unit String)
    (h : gemTwice gem = .error ()) : gem 0 = .error () ∧ gem 1 = .error () := by
  unfold gemTwice at h
  cases hg : gem 0 with
  | ok t => rw [hg] at h; cases h
  | error e =>
    rw [hg] at h
    cases hg2 : gem 1 with
    | ok t => rw [hg2] at h; cases h
    | error e2 => rw [hg2] at h; exact ⟨rfl, rfl⟩

theorem gemOnce_err (gem : Nat → Except Unit String)
    (h : gemOnce gem = .error ()) : gem 0 = .error () := by
  unfold gemOnce at h
  cases hg : gem 0 with
  | ok t => rw [hg] at h; cases h
  | error e => exact rfl

/-- C2: the extract is used verbatim, with no gemini invocation, exactly
when the lookup returns status 200 with a non-empty extract free of the
disambiguation marker; in every other case (transport failure, other
status, empty extract, marker present) the description, when the run does
not abort, is the output of a gemini fallback call. -/
theorem scrape_extract_or_fallback (wiki : WikiResult) (gem : Nat → Except Unit String) :
    (∀ d, wikiGood wiki = some d → scrapeDescription wiki gem = .ok (d, 0)) ∧
    (wikiGood wiki = none → ∀ s n, scrapeDescription wiki gem = .ok (s, n) →
      1 ≤ n ∧ (gem 0 = .ok s ∨ gem 1 = .ok s)) := by
  constructor
  · intro d hd
    cases wiki with
    | netErr => simp [wikiGood] at hd
    | resp status extract =>
      simp only [wikiGood] at hd
      split at hd
      · next hcond =>
        obtain ⟨h200, hne, hmk⟩ := hcond
        injection hd with hd
        subst hd
        simp only [scrapeDescription, if_pos h200]
        rw [if_neg]
        simp only [not_or]
        exact ⟨hne, by rw [hmk]; exact Bool.false_ne_true⟩
      · cases hd
  · intro hnone s n hrun
    cases wiki with
    | netErr =>
      obtain ⟨h1, h0⟩ := gemOnce_ok gem s n hrun
      exact ⟨by omega, Or.inl h0⟩
    | resp status extract =>
      simp only [wikiGood] at hnone
      by_cases h200 : status = 200
      · simp only [scrapeDescription, if_pos h200] at hrun
        by_cases hbad : extract.getD "" = "" ∨
            strContains (extract.getD "") "may refer to:" = true
        · rw [if_pos hbad] at hrun
          obtain ⟨hn, hor⟩ := gemTwice_ok gem s n hrun
          exact ⟨hn.1, hor⟩
        · exfalso
          rw [if_pos] at hnone
          · cases hnone
          · refine ⟨h200, ?_, ?_⟩
            · intro he
              exact hbad (Or.inl he)
            · rcases Bool.eq_false_or_eq_true
                (strContains (extract.getD "") "may refer to:") with hb | hb
              · exact absurd (Or.inr hb) hbad
              · exact hb
      · simp only [scrapeDescription, if_neg h200] at hrun
        obtain ⟨hn, hor⟩ := gemTwice_ok gem s n hrun
        exact ⟨hn.1, hor⟩

/-- Witness for C2: a 200 response with a clean extract is used verbatim
even when gemini would fail. -/
theorem scrape_extract_or_fallback_witness :
    wikiGood (.resp 200 (some "Acme makes widgets.")) = some "Acme makes widgets." ∧
    scrapeDescription (.resp 200 (some "Acme makes widgets.")) (fun _ => .error ()) =
      .ok ("Acme makes widgets.", 0) :=
  ⟨rfl, (scrape_extract_or_fallback _ _).1 _ rfl⟩

/-- C5 counterexample: on a disambiguation extract the gemini fallback is
invoked twice when its first call raises: the blanket `except` handler
absorbs the failure and re-attempts the same call, so the run still
succeeds with invocation count 2. -/
theorem scrape_gemini_retries :
    scrapeDescription (.resp 200 (some "Acme may refer to: several things")) gemFailThenOk =
      .ok ("recovered", 2) ∧ gemFailThenOk 0 = .error () :=
  ⟨rfl, rfl⟩

/-- C5 (amended): gemini is invoked at most twice per lookup.  An aborted
lookup means the first call raised, and, unless the path was transport
failure, the second call raised too; on the transport-failure path a
failure of the single handler call propagates. -/
theorem scrape_gemini_at_most_twice (wiki : WikiResult) (gem : Nat → Except Unit String) :
    (∀ s n, scrapeDescription wiki gem = .ok (s, n) → n ≤ 2) ∧
    (scrapeDescription wiki gem = .error () →
      gem 0 = .error () ∧ (wiki = .netErr ∨ gem 1 = .error ())) ∧
    (wiki = .netErr → gem 0 = .error () → scrapeDescription wiki gem = .error ()) := by
  refine ⟨?_, ?_, ?_⟩
  · intro s n hrun
    cases wiki with
    | netErr => exact (gemOnce_ok gem s n hrun).1 ▸ (by omega)
    | resp status extract =>
      by_cases h200 : status = 200
      · simp only [scrapeDescription, if_pos h200] at hrun
        by_cases hbad : extract.getD "" = "" ∨
            strContains (extract.getD "") "may refer to:" = true
        · rw [if_pos hbad] at hrun
          exact (gemTwice_ok gem s n hrun).1.2
        · rw [if_neg hbad] at hrun
          injection hrun with hrun
          injection hrun with h1 h2
          omega
      · simp only [scrapeDescription, if_neg h200] at hrun
        exact (gemTwice_ok gem s n hrun).1.2
  · intro herr
    cases wiki with
    | netErr => exact ⟨gemOnce_err gem herr, Or.inl rfl⟩
    | resp status extract =>
      by_cases h200 : status = 200
      · simp only [scrapeDescription, if_pos h200] at herr
        by_cases hbad : extract.getD "" = "" ∨
            strContains (extract.getD "") "may refer to:" = true
        · rw [if_pos hbad] at herr
          obtain ⟨h0, h1⟩ := gemTwice_err gem herr
          exact ⟨h0, Or.inr h1⟩
        · rw [if_neg hbad] at herr
          cases herr
      · simp only [scrapeDescription, if_neg h200] at herr
        obtain ⟨h0, h1⟩ := gemTwice_err gem herr
        exact ⟨h0, Or.inr h1⟩
  · intro hw h0
    subst hw
    show gemOnce gem = _
    unfold gemOnce
    rw [h0]

/-- Witness for the amended C5 on the transport-failure path. -/
theorem scrape_gemini_at_most_twice_witness :
    scrapeDescription .netErr (fun _ => .error ()) = .error () :=
  (scrape_gemini_at_most_twice .netErr (fun _ => .error ())).2.2 rfl rfl

/-! ## Theorems: use-case parsing -/

/-- C3: the parse step returns the decoded JSON value unchanged on any
successful decode, and on any decode failure returns exactly the
one-element degraded sequence holding the raw text; in particular a
non-JSON apology string becomes that degraded sequence. -/
theorem parse_response_fallback (loads : String → Option Json) (rc : String) :
    (∀ j, loads rc = some j → parse_response loads rc = j) ∧
    (loads rc = none → parse_response loads rc =
      .arr [.obj [("use_case_summary", .str rc)]]) ∧
    parse_response parseJson "Sorry, I can\u0027t help with that." =
      .arr [.obj [("use_case_summary", .str "Sorry, I can\u0027t help with that.")]] :=
  ⟨fun j hj => by simp [parse_response, hj],
   fun h => by simp [parse_response, h],
   rfl⟩

/-- Witness for C3 at a non-JSON response. -/
theorem parse_response_fallback_witness :
    parse_response parseJson "not json" =
      .arr [.obj [("use_case_summary", .str "not json")]] :=
  (parse_response_fallback parseJson "not json").2.1 rfl

/-- C10: when the response text decodes as JSON that is not an array (an
object, a string, a number, null), the parse step returns that decoded
value as-is rather than the degraded fallback, so `generate_use_cases` can
return a value that is not a sequence of mappings. -/
theorem parse_response_nonarray :
    (∀ (loads : String → Option Json) (rc : String) (j : Json), loads rc = some j →
      generate_use_cases loads rc = j) ∧
    generate_use_cases parseJson "\x7b\"a\":\"b\"\x7d" = .obj [("a", .str "b")] ∧
    (∀ xs : List Json, Json.obj [("a", .str "b")] ≠ .arr xs) ∧
    generate_use_cases parseJson "null" = .null ∧
    generate_use_cases parseJson "7" = .num 7 :=
  ⟨fun loads rc j hj => by simp [generate_use_cases, parse_response, hj],
   rfl,
   fun xs h => Json.noConfusion h,
   rfl,
   rfl⟩

/-- Witness for C10 at a decoded null. -/
theorem parse_response_nonarray_witness :
    generate_use_cases parseJson "null" = Json.null :=
  parse_response_nonarray.1 parseJson "null" Json.null rfl

/-! ## Theorems: trigger block -/

/-- C8: an empty company name takes the `else` branch: the outcome is the
warning, the pipeline is never invoked, and the outcome does not depend on
anything the pipeline (including its network calls) would do. -/
theorem empty_input_only_warns :
    (∀ runner : String → Except Unit Json, triggerBlock "" runner = .warned) ∧
    (∀ r₁ r₂ : String → Except Unit Json, triggerBlock "" r₁ = triggerBlock "" r₂) :=
  ⟨fun _ => rfl, fun _ _ => rfl⟩

/-! ## Theorems: resource linker -/

theorem getField_insertOverwrite (m : List (String × Json)) (k : String) (v : Json)
    (t : String) :
    getField (insertOverwrite m k v) t = if t = k then some v else getField m t := by
  induction m with
  | nil =>
    by_cases h : t = k
    · simp [insertOverwrite, getField, h]
    · simp [insertOverwrite, getField, h, Ne.symm h]
  | cons p rest ih =>
    obtain ⟨k₀, v₀⟩ := p
    by_cases h0 : k₀ = k
    · subst h0
      by_cases h : t = k₀
      · subst h
        simp [insertOverwrite, getField]
      · simp [insertOverwrite, getField, h, Ne.symm h]
    · by_cases h : t = k₀
      · subst h
        simp [insertOverwrite, getField, h0, fun hh : t = k => h0 (hh ▸ rfl)]
      · simp [insertOverwrite, getField, h0, h, Ne.symm h, ih]

theorem keys_insertOverwrite (m : List (String × Json)) (k : String) (v : Json) :
    (insertOverwrite m k v).map Prod.fst =
      if k ∈ m.map Prod.fst then m.map Prod.fst else m.map Prod.fst ++ [k] := by
  induction m with
  | nil => simp [insertOverwrite]
  | cons p rest ih =>
    obtain ⟨k₀, v₀⟩ := p
    by_cases h0 : k₀ = k
    · subst h0
      simp [insertOverwrite]
    · simp only [insertOverwrite, if_neg h0, List.map_cons, List.mem_cons]
      rw [ih]
      by_cases hk : k ∈ rest.map Prod.fst
      · simp [hk, Ne.symm h0]
      · simp [hk, Ne.symm h0]

theorem nodup_insertOverwrite (m : List (String × Json)) (k : String) (v : Json)
    (h : (m.map Prod.fst).Nodup) : ((insertOverwrite m k v).map Prod.fst).Nodup := by
  rw [keys_insertOverwrite]
  by_cases hk : k ∈ m.map Prod.fst
  · simpa [hk] using h
  · simp only [if_neg hk]
    exact List.Nodup.append h (List.nodup_singleton k) (by simpa using hk)

theorem findResGo_obj_str (acc fs : List (String × Json)) (rest : List Json)
    (title : String) (h : titleOf fs = .str title) :
    findResGo acc (Json.obj fs :: rest) =
      findResGo (insertOverwrite acc title (resourceEntry title)) rest := by
  show (match titleOf fs with
    | Json.str t => findResGo (insertOverwrite acc t (resourceEntry t)) rest
    | _ => Except.error ()) = _
  rw [h]

theorem findResGo_obj_bad (acc fs : List (String × Json)) (rest : List Json)
    (h : ∀ t, titleOf fs ≠ Json.str t) :
    findResGo acc (Json.obj fs :: rest) = Except.error () := by
  show (match titleOf fs with
    | Json.str t => findResGo (insertOverwrite acc t (resourceEntry t)) rest
    | _ => Except.error ()) = _
  cases hti : titleOf fs with
  | str t => exact absurd hti (h t)
  | null => rfl
  | bool b => rfl
  | num n => rfl
  | arr xs => rfl
  | obj gs => rfl

theorem findResGo_titles (ts : List String) : ∀ acc : List (String × Json),
    ∃ m, findResGo acc (ts.map fun t => .obj [("use_case", .str t)]) = .ok m ∧
      (∀ t, getField m t = if t ∈ ts then some (resourceEntry t) else getField acc t) ∧
      ((acc.map Prod.fst).Nodup → (m.map Prod.fst).Nodup) := by
  induction ts with
  | nil => exact fun acc => ⟨acc, rfl, by simp, id⟩
  | cons s ts ih =>
    intro acc
    obtain ⟨m, hm, hg, hnd⟩ := ih (insertOverwrite acc s (resourceEntry s))
    refine ⟨m, ?_, ?_, fun h => hnd (nodup_insertOverwrite acc s _ h)⟩
    · rw [List.map_cons, findResGo_obj_str acc _ _ s (by simp [titleOf, getField])]
      exact hm
    · intro t
      rw [hg t, getField_insertOverwrite]
      by_cases hts : t ∈ ts <;> by_cases hts2 : t = s <;>
        simp [hts, hts2, List.mem_cons]

/-- C7: on a use-case list whose elements carry string titles, the
resource mapping has pairwise-distinct keys, its key set is exactly the
set of extracted titles, and the entry of each title is the bundle
constructed for the last occurrence of that title (later duplicates
overwrite earlier entries; the bundle is determined by the title). -/
theorem duplicate_titles_overwrite (ts : List String) :
    ∃ m : List (String × Json),
      find_resources (.arr (ts.map fun t => .obj [("use_case", .str t)])) = .ok (.obj m) ∧
      (m.map Prod.fst).Nodup ∧
      ∀ t, getField m t = if t ∈ ts then some (resourceEntry t) else none := by
  obtain ⟨m, hm, hg, hnd⟩ := findResGo_titles ts []
  refine ⟨m, ?_, hnd (by simp), fun t => by simpa [getField] using hg t⟩
  simp only [find_resources, pyElems]
  rw [hm]

theorem findResGo_ok_iff (cases : List Json) : ∀ acc : List (String × Json),
    (∃ m, findResGo acc cases = .ok m) ↔ (∀ c ∈ cases, goodCaseB c = true) := by
  induction cases with
  | nil => intro acc; simp [findResGo]
  | cons c rest ih =>
    intro acc
    cases c with
    | obj fs =>
      cases hti : titleOf fs with
      | str title =>
        rw [findResGo_obj_str acc fs rest title hti,
          ih (insertOverwrite acc title (resourceEntry title))]
        simp [goodCaseB, hti]
      | null =>
        rw [findResGo_obj_bad acc fs rest (by simp [hti])]
        simp [goodCaseB, hti]
      | bool b =>
        rw [findResGo_obj_bad acc fs rest (by simp [hti])]
        simp [goodCaseB, hti]
      | num n =>
        rw [findResGo_obj_bad acc fs rest (by simp [hti])]
        simp [goodCaseB, hti]
      | arr xs =>
        rw [findResGo_obj_bad acc fs rest (by simp [hti])]
        simp [goodCaseB, hti]
      | obj gs =>
        rw [findResGo_obj_bad acc fs rest (by simp [hti])]
        simp [goodCaseB, hti]
    | null => simp [findResGo, goodCaseB]
    | bool b => simp [findResGo, goodCaseB]
    | num n => simp [findResGo, goodCaseB]
    | str t => simp [findResGo, goodCaseB]
    | arr xs => simp [findResGo, goodCaseB]

/-- C6 counterexample: a use-case list whose element is not a mapping
makes `find_resources` raise (the string element has no `get` attribute),
so the claim that it always succeeds on such inputs is false. -/
theorem find_resources_raises_on_nonmapping :
    find_resources (.arr [.str "x"]) = .error () := rfl

/-- C6 (amended): on a use-case sequence, `find_resources` returns a
mapping without raising exactly when every element is itself a mapping
whose extracted title is a string; for any other element the error branch
is reached. -/
theorem find_resources_ok_iff_wellformed (cases : List Json) :
    (∀ c ∈ cases, goodCaseB c = true) ↔
      ∃ m, find_resources (.arr cases) = .ok (.obj m) := by
  rw [← findResGo_ok_iff cases []]
  constructor
  · rintro ⟨m, hm⟩
    refine ⟨m, ?_⟩
    simp only [find_resources, pyElems]
    rw [hm]
  · rintro ⟨m, hm⟩
    simp only [find_resources, pyElems] at hm
    cases hgo : findResGo [] cases with
    | ok m2 => exact ⟨m2, rfl⟩
    | error e => rw [hgo] at hm; cases hm

/-- Witness for the amended C6 at a well-formed one-element list. -/
theorem find_resources_ok_iff_wellformed_witness :
    (∀ c ∈ [Json.obj [("use_case", Json.str "a")]], goodCaseB c = true) ∧
    ∃ m, find_resources (.arr [Json.obj [("use_case", Json.str "a")]]) = .ok (.obj m) :=
  ⟨by decide, (find_resources_ok_iff_wellformed _).mp (by decide)⟩

/-- C4: the title is the `use_case` field, else the `use_case_summary`
field, else the literal "general"; each use case yields exactly the three
search URLs obtained by substituting spaces with plus signs into the fixed
templates, each wrapped in a one-element sequence, as the Demand
Forecasting instance shows concretely. -/
theorem resource_linker_urls :
    (∀ (fs : List (String × Json)) (t : Json), getField fs "use_case" = some t →
      titleOf fs = t) ∧
    (∀ (fs : List (String × Json)) (t : Json), getField fs "use_case" = none →
      getField fs "use_case_summary" = some t → titleOf fs = t) ∧
    (∀ fs : List (String × Json), getField fs "use_case" = none →
      getField fs "use_case_summary" = none → titleOf fs = .str "general") ∧
    (∀ title : String, find_resources (.arr [.obj [("use_case", .str title)]]) =
      .ok (.obj [(title, resourceEntry title)])) ∧
    find_resources (.arr [.obj [("use_case", .str "Demand Forecasting")]]) =
      .ok (.obj [("Demand Forecasting", .obj [
        ("datasets", .arr [.str "https://kaggle.com/search?q=Demand+Forecasting"]),
        ("models", .arr [.str "https://huggingface.co/models?search=Demand+Forecasting"]),
        ("github_projects",
          .arr [.str "https://github.com/search?q=Demand+Forecasting"])])]) :=
  ⟨fun fs t h => by simp [titleOf, h],
   fun fs t h h2 => by simp [titleOf, h, h2],
   fun fs h h2 => by simp [titleOf, h, h2],
   fun title => rfl,
   rfl⟩

/-- Witness for C4 at a concrete field list. -/
theorem resource_linker_urls_witness :
    titleOf [("use_case", Json.str "X")] = Json.str "X" :=
  resource_linker_urls.1 _ _ rfl

end App
